import Mathlib

/-!
Shallow embedding of `src/id/coref/preprocess.py` (class `CorefDataPreprocessor`)
from the `seacorenlp-data` repository, together with theorems settling the
specification claims about it.

Python dictionaries are modelled as insertion-ordered association lists,
Python sets of integers as sorted duplicate-free lists (`ISet`; CPython
iterates sets of small non-negative integers in ascending order, and the one
place the source turns a set into a sequence applies `sorted` explicitly),
and fallible operations
(`list[i]` indexing, `int(...)`, `dict.pop`, `dict[...]`) as `Except String`
computations whose error branch corresponds to the Python exception.
-/

set_option maxHeartbeats 1000000

deriving instance DecidableEq for Except

namespace CorefPre

/-- `COREFERENCE_LINK_TYPES` from the source (preprocess.py line 16). -/
def COREFERENCE_LINK_TYPES : List String := ["IDENT", "APPOS", "ALIAS", "EXAPPOS"]

/-- Python substring test `needle in hay` for strings. -/
def strContains (hay needle : String) : Bool :=
  hay.data.tails.any (fun t => needle.data.isPrefixOf t)

/-- Python `s.split(sep)` for a single-character separator. -/
def pySplit (s : String) (sep : Char) : List String :=
  (s.data.splitOn sep).map (fun l => String.mk l)

/-- Python `s[:-1]`: drop the final character (empty string stays empty). -/
def pyDropLast (s : String) : String :=
  String.mk s.data.dropLast

/-- Python `any(link_type in label for link_type in COREFERENCE_LINK_TYPES)`. -/
def isRelationLabel (label : String) : Bool :=
  COREFERENCE_LINK_TYPES.any (fun t => strContains label t)

/-- The numeric value of a decimal digit character. -/
def charDigit (c : Char) : Option Nat :=
  if '0' ≤ c ∧ c ≤ '9' then some (c.toNat - '0'.toNat) else none

/-- Accumulate a decimal numeral; `none` on any non-digit character. -/
def digitsToNatAux : Nat → List Char → Option Nat
  | acc, [] => some acc
  | acc, c :: l =>
    match charDigit c with
    | none => none
    | some d => digitsToNatAux (acc * 10 + d) l

/-- Python `int(s)` on a trimmed decimal numeral: an optional sign followed by
at least one digit; anything else raises `ValueError` (modelled as `none`). -/
def pyToInt (s : String) : Option Int :=
  match s.data with
  | [] => none
  | '-' :: l =>
    match l with
    | [] => none
    | _ => (digitsToNatAux 0 l).map (fun n => -(n : Int))
  | '+' :: l =>
    match l with
    | [] => none
    | _ => (digitsToNatAux 0 l).map (fun n => (n : Int))
  | l => (digitsToNatAux 0 l).map (fun n => (n : Int))

/-- One mention's information dictionary. In the source this is a Python dict
whose keys `start`, `end`, `text`, `type`, `label` are added incrementally;
the possibly-absent keys are modelled as `Option` fields. -/
structure MentionInfo where
  start : Nat
  end_ : Option Nat := none
  text : Option (List String) := none
  type_ : Option String := none
  label : Option Nat := none
deriving Repr, DecidableEq

/-- `self._mention_dict`, as an insertion-ordered association list. -/
abbrev MentionDict := List (Int × MentionInfo)

/-- Python `md[k]` lookup returning `none` when the key is absent. -/
def mdFind (md : MentionDict) (k : Int) : Option MentionInfo :=
  (md.find? (fun p => p.1 == k)).map (fun p => p.2)

/-- Python `k in md`. -/
def mdHasKey (md : MentionDict) (k : Int) : Bool :=
  md.any (fun p => p.1 == k)

/-- Python `md[k] = v`: update in place when present, else append (dicts keep
insertion order). -/
def mdInsert (md : MentionDict) (k : Int) (v : MentionInfo) : MentionDict :=
  if mdHasKey md k then md.map (fun p => if p.1 == k then (k, v) else p)
  else md ++ [(k, v)]

/-- Python `md.pop(k)` without a default: `KeyError` when the key is absent. -/
def mdPop (md : MentionDict) (k : Int) : Except String MentionDict :=
  if mdHasKey md k then .ok (md.filter (fun p => !(p.1 == k))) else .error "KeyError"

/-- Fallible left fold, used to model Python `for` loops whose bodies can
raise. -/
def exceptFoldl {α β : Type} (f : β → α → Except String β) : β → List α → Except String β
  | b, [] => .ok b
  | b, a :: l =>
    match f b a with
    | .error e => .error e
    | .ok b' => exceptFoldl f b' l

/-! ### `_extract_mentions` (preprocess.py lines 54-83) -/

/-- Body of the inner `for label in label_list` loop of `_extract_mentions`. -/
def extractMentionsLabel (tokens : List String) (labels : List (List String))
    (i : Nat) (md : MentionDict) (label : String) : Except String MentionDict :=
  if isRelationLabel label then .ok md
  else if label.length == 0 then .ok md
  else
    match (pySplit label '[')[1]? with
    | none => .error "IndexError"
    | some p1 =>
      match pyToInt (pyDropLast p1) with
      | none => .error "ValueError"
      | some mention_id =>
        let md1 := if mdHasKey md mention_id then md else mdInsert md mention_id { start := i }
        if (i == labels.length - 1) || !((labels.getD (i+1) []).contains label) then
          match mdFind md1 mention_id with
          | none => .error "KeyError"
          | some info =>
            let text := (tokens.drop info.start).take (i + 1 - info.start)
            let mtype := (pySplit label '[').headD ""
            .ok (mdInsert md1 mention_id
                  { info with end_ := some i, text := some text, type_ := some mtype })
        else .ok md1

/-- One position of the outer loop of `_extract_mentions`: the whole position
is skipped when the placeholder `"_"` occurs anywhere in its label list. -/
def extractMentionsPos (tokens : List String) (labels : List (List String))
    (i : Nat) (label_list : List String) (md : MentionDict) : Except String MentionDict :=
  if label_list.contains "_" then .ok md
  else exceptFoldl (extractMentionsLabel tokens labels i) md label_list

/-- The `for i, label_list in enumerate(labels)` loop. -/
def extractMentionsAux (tokens : List String) (labels : List (List String)) :
    Nat → List (List String) → MentionDict → Except String MentionDict
  | _, [], md => .ok md
  | i, ll :: rest, md =>
    match extractMentionsPos tokens labels i ll md with
    | .error e => .error e
    | .ok md' => extractMentionsAux tokens labels (i+1) rest md'

/-- `CorefDataPreprocessor._extract_mentions`. -/
def _extract_mentions (tokens : List String) (labels : List (List String))
    (md : MentionDict) : Except String MentionDict :=
  extractMentionsAux tokens labels 0 labels md

/-! ### `_group_mentions_into_clusters` (preprocess.py lines 124-145) -/

/-- A Python set of integers, kept as a sorted duplicate-free list. -/
abbrev ISet := List Int

/-- Insert `x` into a sorted duplicate-free list, keeping it so. -/
def setInsert (x : Int) : ISet → ISet
  | [] => [x]
  | y :: l => if x < y then x :: y :: l else if x = y then y :: l else y :: setInsert x l

/-- Python `s.update(xs)` / set union: insert every element of `xs` into `s`. -/
def setUnion (s : ISet) (xs : List Int) : ISet :=
  xs.foldl (fun s x => setInsert x s) s

/-- Python `sorted(list(s))`: sort (and, for sets, deduplicate) a list. -/
def sortedList (c : List Int) : List Int :=
  c.foldl (fun s x => setInsert x s) []

/-- Python `set(pair)`. -/
def pairSet (p : Int × Int) : ISet := setInsert p.2 (setInsert p.1 [])

/-- Python truthiness of `set(pair).intersection(cluster)`. -/
def pairIntersects (p : Int × Int) (c : ISet) : Bool :=
  (pairSet p).any (fun x => c.contains x)

/-- Body of the `for pair in mention_pairs[1:]` loop: scan clusters in order,
update the first intersecting one in place, else append a new cluster. -/
def groupStep : List ISet → Int × Int → List ISet
  | [], p => [pairSet p]
  | c :: rest, p =>
    if pairIntersects p c then setUnion c (pairSet p) :: rest
    else c :: groupStep rest p

/-- `CorefDataPreprocessor._group_mentions_into_clusters`. -/
def _group_mentions_into_clusters : List (Int × Int) → List ISet
  | [] => []
  | p :: rest => rest.foldl groupStep [pairSet p]

/-! ### `_handle_appositives` (preprocess.py lines 85-122) -/

/-- Body of the `for mention_pair in clustered_appositive_pairs` loop of
`_handle_appositives`; `tup` is `tuple(sorted(list(cluster)))`. -/
def fuseCluster (use_appos : Bool) (tokens : List String)
    (st : MentionDict × ISet) (tup : List Int) :
    Except String (MentionDict × ISet) :=
  match tup[1]? with
  | none => .error "IndexError"
  | some m1 =>
    let appos := setInsert m1 st.2
    if !use_appos then .ok (st.1, appos)
    else
      match tup with
      | [] => .error "IndexError"
      | m0 :: rest =>
        let mlast := (m0 :: rest).getLastD 0
        match mdFind st.1 m0 with
        | none => .error "KeyError"
        | some info0 =>
          let span_start := info0.start
          match mdFind st.1 mlast with
          | none => .error "KeyError"
          | some infolast =>
            match infolast.end_ with
            | none => .error "KeyError"
            | some new_span_end =>
              let fusedText := (tokens.drop span_start).take (new_span_end + 1 - span_start)
              let md1 := mdInsert st.1 m0
                { info0 with end_ := some new_span_end, text := some fusedText }
              if fusedText.count "(" == fusedText.count ")" + 1 then
                match tokens[new_span_end + 1]? with
                | none => .error "IndexError"
                | some tnext =>
                  if tnext == ")" then
                    .ok (mdInsert md1 m0
                      { info0 with
                          end_ := some (new_span_end + 1),
                          text := some ((tokens.drop span_start).take (new_span_end + 2 - span_start)) },
                      appos)
                  else .ok (md1, appos)
              else .ok (md1, appos)

/-- `CorefDataPreprocessor._handle_appositives`. -/
def _handle_appositives (use_appos : Bool) (tokens : List String)
    (appositive_pairs : List (Int × Int)) (md : MentionDict) (appos : ISet) :
    Except String (MentionDict × ISet) :=
  let appos_clusters := _group_mentions_into_clusters appositive_pairs
  let clustered := appos_clusters.map sortedList
  exceptFoldl (fuseCluster use_appos tokens) (md, appos) clustered

/-! ### `_extract_coreference_links` (preprocess.py lines 147-199) -/

/-- The pair lists and removal-candidate lists built while scanning labels. -/
structure LinkState where
  mention_pairs : List (Int × Int)
  appositive_pairs : List (Int × Int)
  aliases : List Int
  exappos_mentions : List Int
deriving Repr, DecidableEq

/-- Body of the `for label in label_list` loop of `_extract_coreference_links`. -/
def linkStep (use_aliases use_exappos : Bool) (ls : LinkState) (label : String) :
    Except String LinkState :=
  if isRelationLabel label then
    match (pySplit label '[')[1]? with
    | none => .error "IndexError"
    | some p1 =>
      let pairParts := pySplit (pyDropLast p1) '_'
      let label_class := (pySplit label '[').headD ""
      if pairParts.length != 2 then .ok ls
      else
        match pyToInt (pairParts.headD "") with
        | none => .error "ValueError"
        | some a =>
          match pyToInt (pairParts.getD 1 "") with
          | none => .error "ValueError"
          | some b =>
            if label_class == "APPOS" then
              .ok { ls with appositive_pairs := ls.appositive_pairs ++ [(a, b)] }
            else
              let ls1 := { ls with mention_pairs := ls.mention_pairs ++ [(a, b)] }
              let ls2 := if !use_aliases && (label_class == "ALIAS") then
                  { ls1 with aliases := ls1.aliases ++ [b] } else ls1
              let ls3 := if !use_exappos && (label_class == "EXAPPOS") then
                  { ls2 with exappos_mentions := ls2.exappos_mentions ++ [b] } else ls2
              .ok ls3
  else .ok ls

/-- The double loop over `labels` in `_extract_coreference_links`. -/
def scanLinkLabels (use_aliases use_exappos : Bool) (labels : List (List String))
    (ls : LinkState) : Except String LinkState :=
  exceptFoldl (fun ls ll => exceptFoldl (linkStep use_aliases use_exappos) ls ll) ls labels

/-- Python `{mention for mention_pair in mention_pairs for mention in mention_pair}`. -/
def endpointsOf (pairs : List (Int × Int)) : ISet :=
  pairs.foldl (fun s p => setInsert p.2 (setInsert p.1 s)) []

/-- The `for mention in self._appos_mentions` disposal loop (lines 195-197):
pop every bare-appositive mention that is no coreference-pair endpoint. -/
def disposeAppos (appos : ISet) (endpoints : ISet) (md : MentionDict) :
    Except String MentionDict :=
  exceptFoldl (fun md m => if endpoints.contains m then .ok md else mdPop md m) md appos

/-- Result of `_extract_coreference_links`: the updated mention dict, the
bare-appositive set, the two removal-candidate lists and the cluster list. -/
structure LinksResult where
  mention_dict : MentionDict
  appos_mentions : ISet
  aliases : List Int
  exappos_mentions : List Int
  clusters : List ISet
deriving Repr, DecidableEq

/-- `CorefDataPreprocessor._extract_coreference_links`. -/
def _extract_coreference_links (use_aliases use_exappos use_appos : Bool)
    (tokens : List String) (labels : List (List String)) (md : MentionDict)
    (aliases0 exappos0 : List Int) (appos0 : ISet) :
    Except String LinksResult :=
  match scanLinkLabels use_aliases use_exappos labels
      { mention_pairs := [], appositive_pairs := [],
        aliases := aliases0, exappos_mentions := exappos0 } with
  | .error e => .error e
  | .ok ls =>
    match _handle_appositives use_appos tokens ls.appositive_pairs md appos0 with
    | .error e => .error e
    | .ok (md2, appos) =>
      match disposeAppos appos (endpointsOf ls.mention_pairs) md2 with
      | .error e => .error e
      | .ok md3 =>
        .ok { mention_dict := md3, appos_mentions := appos, aliases := ls.aliases,
              exappos_mentions := ls.exappos_mentions,
              clusters := _group_mentions_into_clusters ls.mention_pairs }

/-! ### `_assign_mentions_to_clusters` (lines 201-218), removals (lines 220-230) -/

/-- Index of the first cluster containing `k` (the `for i, cluster in
enumerate(self._clusters)` scan with `break`). -/
def clusterIndexOf (clusters : List ISet) (k : Int) : Option Nat :=
  clusters.findIdx? (fun c => c.contains k)

/-- The label-stamping part of `_assign_mentions_to_clusters`. -/
def assignLabels (clusters : List ISet) (md : MentionDict) : MentionDict :=
  md.map (fun p =>
    match clusterIndexOf clusters p.1 with
    | some i => (p.1, { p.2 with label := some i })
    | none => p)

/-- The singleton list collected by `_assign_mentions_to_clusters`. -/
def singletonsOf (clusters : List ISet) (md : MentionDict) : List Int :=
  (md.filter (fun p => (clusterIndexOf clusters p.1).isNone)).map (fun p => p.1)

/-- Pop every identifier in `ids` from `md` (`KeyError` when one is absent). -/
def popAll (md : MentionDict) (ids : List Int) : Except String MentionDict :=
  exceptFoldl mdPop md ids

/-- `CorefDataPreprocessor._assign_mentions_to_clusters`. -/
def _assign_mentions_to_clusters (remove_singletons : Bool)
    (clusters : List ISet) (md : MentionDict) : Except String MentionDict :=
  let md1 := assignLabels clusters md
  if remove_singletons then popAll md1 (singletonsOf clusters md) else .ok md1

/-- Shared body of `_remove_aliases` and `_remove_exappos`: pop each listed
identifier from the mention dict and scrub it from every cluster. -/
def removeIds (ids : List Int) (md : MentionDict) (clusters : List ISet) :
    Except String (MentionDict × List ISet) :=
  exceptFoldl (fun st i =>
    match mdPop st.1 i with
    | .error e => .error e
    | .ok md' => .ok (md', st.2.map (fun c => c.filter (fun y => !(y == i))))) (md, clusters) ids

/-- `CorefDataPreprocessor._remove_aliases`. -/
def _remove_aliases (aliases : List Int) (md : MentionDict)
    (clusters : List ISet) : Except String (MentionDict × List ISet) :=
  removeIds aliases md clusters

/-- `CorefDataPreprocessor._remove_exappos`. -/
def _remove_exappos (exappos : List Int) (md : MentionDict)
    (clusters : List ISet) : Except String (MentionDict × List ISet) :=
  removeIds exappos md clusters

/-! ### Preprocessor state, `get_coref_info`, `reset`, `get_paragraph_data` -/

/-- The four policy flags of the constructor. -/
structure Flags where
  use_appos : Bool
  use_exappos : Bool
  use_aliases : Bool
  remove_singletons : Bool
deriving Repr, DecidableEq

/-- The paragraph-specific fields of `CorefDataPreprocessor`. -/
structure PState where
  text : String
  tokens : List String
  labels : List (List String)
  mention_dict : MentionDict
  clusters : List ISet
  aliases : List Int
  exappos_mentions : List Int
  appos_mentions : ISet
deriving Repr, DecidableEq

/-- `CorefDataPreprocessor.get_coref_info`. -/
def get_coref_info (fl : Flags) (s : PState) : Except String PState :=
  match _extract_mentions s.tokens s.labels s.mention_dict with
  | .error e => .error e
  | .ok md =>
    match _extract_coreference_links fl.use_aliases fl.use_exappos fl.use_appos
        s.tokens s.labels md s.aliases s.exappos_mentions s.appos_mentions with
    | .error e => .error e
    | .ok lr =>
      match _assign_mentions_to_clusters fl.remove_singletons lr.clusters lr.mention_dict with
      | .error e => .error e
      | .ok md4 =>
        match (if fl.use_aliases then .ok (md4, lr.clusters)
               else _remove_aliases lr.aliases md4 lr.clusters) with
        | .error e => .error e
        | .ok (md5, cl2) =>
          match (if fl.use_exappos then .ok (md5, cl2)
                 else _remove_exappos lr.exappos_mentions md5 cl2) with
          | .error e => .error e
          | .ok (md6, cl3) =>
            .ok { s with
                    mention_dict := md6, clusters := cl3, aliases := lr.aliases,
                    exappos_mentions := lr.exappos_mentions,
                    appos_mentions := lr.appos_mentions }

/-- `CorefDataPreprocessor.reset` (lines 267-274). The source resets every
paragraph field except `_exappos_mentions`, which it leaves unchanged. -/
def reset (s : PState) : PState :=
  { s with
      text := "", tokens := [], labels := [], mention_dict := [],
      clusters := [], aliases := [], appos_mentions := [] }

/-- A fresh preprocessor state loaded with one paragraph's tokens and labels. -/
def initState (tokens : List String) (labels : List (List String)) : PState :=
  { text := "", tokens := tokens, labels := labels, mention_dict := [], clusters := [],
    aliases := [], exappos_mentions := [], appos_mentions := [] }

/-- Run `get_coref_info` on a single paragraph from a fresh state. -/
def runParagraph (fl : Flags) (tokens : List String) (labels : List (List String)) :
    Except String PState :=
  get_coref_info fl (initState tokens labels)

/-- The token/label assignment of `get_paragraph_data` (lines 243-254). -/
def segLine (acc : List String × List (List String)) (line : String) :
    Except String (List String × List (List String)) :=
  let columns := pySplit line '\t'
  if columns.length == 1 then .ok acc
  else
    match columns[2]?, columns[3]? with
    | some tok, some lab => .ok (acc.1 ++ [tok], acc.2 ++ [pySplit lab '|'])
    | _, _ => .error "IndexError"

/-- `CorefDataPreprocessor.get_paragraph_data`. -/
def get_paragraph_data (paragraph : String) :
    Except String (String × List String × List (List String)) :=
  let lines := pySplit paragraph.trim '\n'
  let text := (lines.headD "").drop 6
  match exceptFoldl segLine ([], []) lines.tail with
  | .error e => .error e
  | .ok (toks, labs) => .ok (text, toks, labs)

/-- Load a segmented paragraph into the state (the final assignment of
`get_paragraph_data`). -/
def setParagraphData (s : PState) (t : String) (toks : List String)
    (labs : List (List String)) : PState :=
  { s with text := t, tokens := toks, labels := labs }

/-! ## Shared lemmas -/

theorem mem_setInsert {a x : Int} {l : ISet} : a ∈ setInsert x l ↔ a = x ∨ a ∈ l := by
  induction l with
  | nil => simp [setInsert]
  | cons y l ih =>
    unfold setInsert
    split_ifs with h1 h2
    · simp only [List.mem_cons]
    · subst h2
      simp only [List.mem_cons]
      tauto
    · simp only [List.mem_cons, ih]
      tauto

theorem mem_pairSet {a : Int} {p : Int × Int} : a ∈ pairSet p ↔ a = p.1 ∨ a = p.2 := by
  simp only [pairSet, mem_setInsert, List.not_mem_nil, or_false]
  tauto

theorem pairIntersects_eq (p : Int × Int) (c : ISet) :
    pairIntersects p c = (c.contains p.1 || c.contains p.2) := by
  have hp : pairSet p =
      if p.2 < p.1 then [p.2, p.1] else if p.2 = p.1 then [p.1] else [p.1, p.2] := by
    simp [pairSet, setInsert]
  rw [pairIntersects, hp]
  split_ifs with h1 h2
  · simp [Bool.or_comm]
  · rw [h2]
    simp
  · simp

/-- Invariant preservation along a fallible fold. -/
theorem exceptFoldl_inv {α β : Type} {P : β → Prop} {f : β → α → Except String β}
    (hf : ∀ b a b', P b → f b a = .ok b' → P b') :
    ∀ (l : List α) {b b' : β}, P b → exceptFoldl f b l = .ok b' → P b' := by
  intro l
  induction l with
  | nil =>
    intro b b' hb h
    simp [exceptFoldl] at h
    exact h ▸ hb
  | cons a l ih =>
    intro b b' hb h
    rw [exceptFoldl] at h
    cases hfa : f b a with
    | error e => rw [hfa] at h; simp at h
    | ok b1 =>
      rw [hfa] at h
      simp at h
      exact ih (hf b a b1 hb hfa) h

theorem mdFind_map_update {md : MentionDict} {k : Int} (v : MentionInfo)
    (h : mdHasKey md k = true) :
    mdFind (md.map (fun p => if p.1 == k then (k, v) else p)) k = some v := by
  induction md with
  | nil => simp [mdHasKey] at h
  | cons p md ih =>
    rw [List.map_cons]
    cases hp : (p.1 == k) with
    | true =>
      rw [if_pos rfl]
      unfold mdFind
      rw [List.find?_cons_of_pos _ (by simp)]
      simp
    | false =>
      rw [if_neg (by simp)]
      unfold mdFind at ih ⊢
      rw [List.find?_cons_of_neg _ (by simp [hp])]
      apply ih
      unfold mdHasKey at h
      simp only [List.any_cons, hp, Bool.false_or] at h
      exact h

theorem mdFind_append_last {md : MentionDict} {k : Int} (v : MentionInfo)
    (h : mdHasKey md k = false) :
    mdFind (md ++ [(k, v)]) k = some v := by
  induction md with
  | nil => simp [mdFind, List.find?]
  | cons p md ih =>
    unfold mdHasKey at h
    simp only [List.any_cons, Bool.or_eq_false_iff] at h
    rw [List.cons_append]
    unfold mdFind at ih ⊢
    rw [List.find?_cons_of_neg _ (by simp [h.1])]
    exact ih (by unfold mdHasKey; exact h.2)

theorem mdFind_mdInsert_self (md : MentionDict) (k : Int) (v : MentionInfo) :
    mdFind (mdInsert md k v) k = some v := by
  unfold mdInsert
  cases h : mdHasKey md k with
  | true =>
    rw [if_pos rfl]
    exact mdFind_map_update v h
  | false =>
    rw [if_neg (by simp)]
    exact mdFind_append_last v h

theorem mem_mdInsert {q : Int × MentionInfo} {md : MentionDict} {k : Int} {v : MentionInfo} :
    q ∈ mdInsert md k v → q = (k, v) ∨ q ∈ md := by
  unfold mdInsert
  split_ifs with h
  · intro hq
    rcases List.mem_map.mp hq with ⟨p, hp, he⟩
    by_cases hpk : (p.1 == k) = true
    · rw [if_pos hpk] at he
      exact Or.inl he.symm
    · rw [if_neg hpk] at he
      exact Or.inr (he ▸ hp)
  · intro hq
    rcases List.mem_append.mp hq with hq | hq
    · exact Or.inr hq
    · exact Or.inl (List.mem_singleton.mp hq)

theorem mem_of_mem_filter' {q : Int × MentionInfo} {md : MentionDict}
    {f : Int × MentionInfo → Bool} : q ∈ md.filter f → q ∈ md :=
  fun h => List.mem_of_mem_filter h

/-! ## Claim C2: the cluster-building algorithm -/

/-- The cluster-building step exactly as the claim words it: scan the existing
clusters in order, union both identifiers of the pair into the first cluster
sharing any identifier with it, and stop there; if no cluster intersects,
append a new cluster holding exactly the two identifiers. -/
def specStep (cl : List ISet) (p : Int × Int) : List ISet :=
  match cl.findIdx? (fun c => c.contains p.1 || c.contains p.2) with
  | some j => cl.take j ++ [setUnion (cl.getD j []) (pairSet p)] ++ cl.drop (j+1)
  | none => cl ++ [pairSet p]

/-- The cluster list the claim describes: process the pairs in input order
starting from no clusters. -/
def clustersSpec (pairs : List (Int × Int)) : List ISet :=
  pairs.foldl specStep []

theorem specStep_eq_none (cl : List ISet) {p : Int × Int}
    (h : cl.findIdx? (fun c => c.contains p.1 || c.contains p.2) = none) :
    specStep cl p = cl ++ [pairSet p] := by
  unfold specStep
  rw [h]

theorem specStep_eq_some (cl : List ISet) {p : Int × Int} {j : Nat}
    (h : cl.findIdx? (fun c => c.contains p.1 || c.contains p.2) = some j) :
    specStep cl p = cl.take j ++ [setUnion (cl.getD j []) (pairSet p)] ++ cl.drop (j+1) := by
  unfold specStep
  rw [h]

theorem findIdx?_cons_zero {α : Type} {c : α} {rest : List α} {f : α → Bool} :
    (c :: rest).findIdx? f = if f c then some 0 else (rest.findIdx? f).map (· + 1) := by
  rw [List.findIdx?_cons]
  by_cases h : f c
  · rw [if_pos h, if_pos h]
  · rw [if_neg h, if_neg h, List.findIdx?_succ]

theorem groupStep_eq_specStep : ∀ (cl : List ISet) (p : Int × Int),
    groupStep cl p = specStep cl p := by
  intro cl p
  induction cl with
  | nil => simp [groupStep, specStep]
  | cons c rest ih =>
    rw [groupStep, pairIntersects_eq, ih]
    by_cases hf : (c.contains p.1 || c.contains p.2) = true
    · rw [if_pos hf]
      rw [specStep_eq_some (c :: rest) (j := 0) (by rw [findIdx?_cons_zero, if_pos hf])]
      simp
    · rw [if_neg hf]
      cases hr : rest.findIdx? (fun c => c.contains p.1 || c.contains p.2) with
      | none =>
        rw [specStep_eq_none rest hr]
        rw [specStep_eq_none (c :: rest) (by rw [findIdx?_cons_zero, if_neg hf, hr]; rfl)]
        simp
      | some j =>
        rw [specStep_eq_some rest hr]
        rw [specStep_eq_some (c :: rest) (j := j + 1)
              (by rw [findIdx?_cons_zero, if_neg hf, hr]; rfl)]
        simp [List.take_succ_cons, List.getD_cons_succ, List.drop_succ_cons]

/-- C2: `_group_mentions_into_clusters` returns exactly the cluster list of the
claim's algorithm (`clustersSpec`: process pairs in input order, union both
identifiers into the first intersecting cluster and stop scanning, else append
a new two-identifier cluster); a step never decreases the number of clusters,
so two previously separate clusters are never merged, as the concrete bridging
input `[(1,2),(3,4),(2,3)]` shows. -/
theorem c2_cluster_builder_exact :
    (∀ pairs : List (Int × Int), _group_mentions_into_clusters pairs = clustersSpec pairs)
  ∧ (∀ (cl : List ISet) (p : Int × Int), cl.length ≤ (groupStep cl p).length)
  ∧ _group_mentions_into_clusters [(1,2),(3,4),(2,3)] = [[1,2,3],[3,4]] := by
  refine ⟨?_, ?_, by decide⟩
  · intro pairs
    cases pairs with
    | nil => rfl
    | cons p rest =>
      have hstep : groupStep = specStep := by
        funext cl q
        exact groupStep_eq_specStep cl q
      show rest.foldl groupStep [pairSet p] = (p :: rest).foldl specStep []
      rw [hstep, List.foldl_cons]
      have hfirst : specStep [] p = [pairSet p] := by
        simp [specStep]
      rw [hfirst]
  · intro cl p
    induction cl with
    | nil => simp [groupStep]
    | cons c rest ih =>
      rw [groupStep]
      by_cases hf : pairIntersects p c = true
      · rw [if_pos hf]
        simp
      · rw [if_neg hf]
        simpa using ih

/-! ## Claim C7: removal of an absent mention identifier -/

/-- C7 (the code contradicts the spec's tolerance requirement): when a
relation references identifier 2 that was never extracted as a mention, both
the bare-appositive disposal and the alias removal pop an absent key and the
paragraph run aborts with a KeyError instead of continuing. -/
theorem c7_absent_id_removal_fails :
    runParagraph
      { use_appos := false, use_exappos := false, use_aliases := false,
        remove_singletons := false } ["a"] [["PROPER[1]","APPOS[1_2]"]] = .error "KeyError"
  ∧ runParagraph
      { use_appos := false, use_exappos := false, use_aliases := false,
        remove_singletons := false } ["a"] [["PROPER[1]","ALIAS[1_2]"]] = .error "KeyError" :=
  ⟨by decide, by decide⟩

/-! ## Claim C8: per-paragraph state reset -/

/-- The flag setting used for the C8 run. -/
def c8Flags : Flags :=
  { use_appos := false, use_exappos := false, use_aliases := false, remove_singletons := false }

def c8Tokens1 : List String := ["a","b"]

def c8Labels1 : List (List String) := [["PROPER[1]","EXAPPOS[1_2]"],["PROPER[2]"]]

def c8Tokens2 : List String := ["c"]

def c8Labels2 : List (List String) := [["PROPER[1]","PROPER[2]"]]

/-- One iteration of the `convert_tsv_to_jsonl` loop: process paragraph 1,
reset, and load paragraph 2. -/
def c8AfterP1 : Except String PState :=
  (get_coref_info c8Flags (initState c8Tokens1 c8Labels1)).map
    (fun s => setParagraphData (reset s) "" c8Tokens2 c8Labels2)

/-- The surviving mention identifiers of paragraph 2 when processed after
paragraph 1 and a reset. -/
def c8SecondRun : Except String (List Int) :=
  (c8AfterP1.bind (get_coref_info c8Flags)).map (fun s => s.mention_dict.map (fun p => p.1))

/-- The surviving mention identifiers of paragraph 2 processed from a fresh
state. -/
def c8FreshRun : Except String (List Int) :=
  (get_coref_info c8Flags (initState c8Tokens2 c8Labels2)).map
    (fun s => s.mention_dict.map (fun p => p.1))

/-- C8 (the code contradicts its own "Reset after every paragraph" comment):
`reset` leaves `_exappos_mentions` unchanged for every state, and the stale
extended-appositive candidate list of paragraph 1 removes mention 2 from
paragraph 2's output, which a fresh run keeps. -/
theorem c8_reset_misses_exappos :
    (∀ s : PState, (reset s).exappos_mentions = s.exappos_mentions)
  ∧ c8SecondRun = .ok [1]
  ∧ c8FreshRun = .ok [1, 2] :=
  ⟨fun _ => rfl, by decide, by decide⟩

/-! ## Claim C9: malformed relation payloads -/

/-- C9 counterexample: a relation label whose two underscore-separated payload
parts are not integers is not discarded — the run aborts with a ValueError,
so processing of the remaining labels does not continue. -/
theorem c9_counterexample :
    runParagraph
      { use_appos := false, use_exappos := false, use_aliases := false,
        remove_singletons := false } ["a"] [["IDENT[a_b]","PROPER[1]"]] = .error "ValueError" := by
  decide

/-- C9 amended: a relation label whose bracketed payload does not split into
exactly two underscore-separated parts is discarded and the scan state is
unchanged (scanning continues); a two-part payload whose first or second part
is not an integer aborts link extraction with a ValueError. -/
theorem c9_amended_malformed_payloads (ua ue : Bool) (ls : LinkState)
    (label p1 sa sb : String) :
    (isRelationLabel label = true →
      (pySplit label '[')[1]? = some p1 →
      (pySplit (pyDropLast p1) '_').length ≠ 2 →
      linkStep ua ue ls label = .ok ls)
  ∧ (isRelationLabel label = true →
      (pySplit label '[')[1]? = some p1 →
      pySplit (pyDropLast p1) '_' = [sa, sb] →
      pyToInt sa = none →
      linkStep ua ue ls label = .error "ValueError")
  ∧ (∀ a : Int, isRelationLabel label = true →
      (pySplit label '[')[1]? = some p1 →
      pySplit (pyDropLast p1) '_' = [sa, sb] →
      pyToInt sa = some a →
      pyToInt sb = none →
      linkStep ua ue ls label = .error "ValueError") := by
  refine ⟨?_, ?_, ?_⟩
  · intro h1 h2 h3
    unfold linkStep
    rw [if_pos h1, h2]
    have h3' : ((pySplit (pyDropLast p1) '_').length != 2) = true := by
      simpa using h3
    simp only [h3', if_true]
  · intro h1 h2 h3 h4
    unfold linkStep
    rw [if_pos h1, h2]
    simp only [h3, List.length_cons, List.length_nil, List.headD_cons]
    rw [h4]
    simp
  · intro a h1 h2 h3 h4 h5
    unfold linkStep
    rw [if_pos h1, h2]
    simp only [h3, List.length_cons, List.length_nil, List.headD_cons]
    rw [h4]
    simp only [List.getD_cons_succ, List.getD_cons_zero]
    rw [h5]
    simp

/-- C9 witness: the amended behaviour at concrete labels — `IDENT[1_2_3]` is
discarded with the state unchanged, `IDENT[a_b]` and `IDENT[1_b]` abort. -/
theorem c9_amended_witness :
    linkStep false false
      { mention_pairs := [], appositive_pairs := [], aliases := [], exappos_mentions := [] }
      "IDENT[1_2_3]" = .ok
      { mention_pairs := [], appositive_pairs := [], aliases := [], exappos_mentions := [] }
  ∧ linkStep false false
      { mention_pairs := [], appositive_pairs := [], aliases := [], exappos_mentions := [] }
      "IDENT[a_b]" = .error "ValueError"
  ∧ linkStep false false
      { mention_pairs := [], appositive_pairs := [], aliases := [], exappos_mentions := [] }
      "IDENT[1_b]" = .error "ValueError" :=
  ⟨(c9_amended_malformed_payloads false false _ "IDENT[1_2_3]" "1_2_3]" "" "").1
      (by decide) (by decide) (by decide),
   (c9_amended_malformed_payloads false false _ "IDENT[a_b]" "a_b]" "a" "b").2.1
      (by decide) (by decide) (by decide) (by decide),
   (c9_amended_malformed_payloads false false _ "IDENT[1_b]" "1_b]" "1" "b").2.2 1
      (by decide) (by decide) (by decide) (by decide) (by decide)⟩

/-! ## Claim C6: alias / extended-appositive candidate lists -/

/-- C6 counterexample: with `use_aliases = true` and `use_exappos = true`, an
ALIAS pair and an EXAPPOS pair are bucketed into the coreference-pair list but
neither removal-candidate list receives the pair's second identifier — the
lists are not populated unconditionally. -/
theorem c6_counterexample :
    scanLinkLabels true true [["ALIAS[1_2]","EXAPPOS[3_4]"]]
      { mention_pairs := [], appositive_pairs := [], aliases := [], exappos_mentions := [] } =
    .ok { mention_pairs := [(1,2),(3,4)], appositive_pairs := [],
          aliases := [], exappos_mentions := [] } := by
  decide

/-- C6 amended: a well-formed ALIAS pair's second identifier is appended to
the alias-removal candidate list precisely when `use_aliases` is false, and an
EXAPPOS pair's second identifier to the extended-appositive candidate list
precisely when `use_exappos` is false; the pair itself is always appended to
the coreference-pair list. -/
theorem c6_amended_candidate_lists (ua ue : Bool) (ls : LinkState)
    (label p1 sa sb : String) (a b : Int) :
    (isRelationLabel label = true →
      (pySplit label '[')[1]? = some p1 →
      pySplit (pyDropLast p1) '_' = [sa, sb] →
      pyToInt sa = some a →
      pyToInt sb = some b →
      (pySplit label '[').headD "" = "ALIAS" →
      linkStep ua ue ls label = .ok
        { ls with mention_pairs := ls.mention_pairs ++ [(a, b)],
                  aliases := ls.aliases ++ (if ua then [] else [b]) })
  ∧ (isRelationLabel label = true →
      (pySplit label '[')[1]? = some p1 →
      pySplit (pyDropLast p1) '_' = [sa, sb] →
      pyToInt sa = some a →
      pyToInt sb = some b →
      (pySplit label '[').headD "" = "EXAPPOS" →
      linkStep ua ue ls label = .ok
        { ls with mention_pairs := ls.mention_pairs ++ [(a, b)],
                  exappos_mentions := ls.exappos_mentions ++ (if ue then [] else [b]) }) := by
  constructor
  · intro h1 h2 h3 h4 h5 h6
    unfold linkStep
    rw [if_pos h1, h2]
    simp only [h3, List.length_cons, List.length_nil, List.headD_cons,
      List.getD_cons_succ, List.getD_cons_zero]
    rw [h4, h5, h6]
    cases ua <;> simp
  · intro h1 h2 h3 h4 h5 h6
    unfold linkStep
    rw [if_pos h1, h2]
    simp only [h3, List.length_cons, List.length_nil, List.headD_cons,
      List.getD_cons_succ, List.getD_cons_zero]
    rw [h4, h5, h6]
    cases ue <;> simp

/-- C6 witness: the amended behaviour at `ALIAS[1_2]` and `EXAPPOS[3_4]` for
both values of the respective flag. -/
theorem c6_amended_witness :
    linkStep false false
      { mention_pairs := [], appositive_pairs := [], aliases := [], exappos_mentions := [] }
      "ALIAS[1_2]" = .ok
      { mention_pairs := [(1,2)], appositive_pairs := [], aliases := [2], exappos_mentions := [] }
  ∧ linkStep true true
      { mention_pairs := [], appositive_pairs := [], aliases := [], exappos_mentions := [] }
      "EXAPPOS[3_4]" = .ok
      { mention_pairs := [(3,4)], appositive_pairs := [], aliases := [], exappos_mentions := [] } :=
  ⟨(c6_amended_candidate_lists false false _ "ALIAS[1_2]" "1_2]" "1" "2" 1 2).1
      (by decide) (by decide) (by decide) (by decide) (by decide) (by decide),
   (c6_amended_candidate_lists true true _ "EXAPPOS[3_4]" "3_4]" "3" "4" 3 4).2
      (by decide) (by decide) (by decide) (by decide) (by decide) (by decide)⟩

/-! ## Claim C10: the parenthesis repair is not total -/

/-- C10: with appositive fusion enabled, when the fused head text has exactly
one more `"("` token than `")"` tokens, the repair rule reads the token at
index `new_span_end + 1`; whenever the fused span ends at the paragraph's last
token this index is past the end of the token sequence (the Option-valued
access yields `none`), so the fusion step fails rather than completing. -/
theorem c10_paren_repair_not_total (tokens : List String) (md : MentionDict) (app : ISet)
    (m0 : Int) (rest : List Int) (m1 : Int) (info0 infolast : MentionInfo) (e : Nat) :
    (m0 :: rest)[1]? = some m1 →
    mdFind md m0 = some info0 →
    mdFind md ((m0 :: rest).getLastD 0) = some infolast →
    infolast.end_ = some e →
    e + 1 = tokens.length →
    ((tokens.drop info0.start).take (e + 1 - info0.start)).count "(" =
      ((tokens.drop info0.start).take (e + 1 - info0.start)).count ")" + 1 →
    fuseCluster true tokens (md, app) (m0 :: rest) = .error "IndexError" := by
  intro h1 h2 h3 h4 h5 h6
  have h6' : ((((tokens.drop info0.start).take (e + 1 - info0.start)).count "(" ==
      ((tokens.drop info0.start).take (e + 1 - info0.start)).count ")" + 1) = true) := by
    rw [beq_iff_eq]
    exact h6
  have h7 : tokens[e + 1]? = none := List.getElem?_eq_none (by omega)
  simp only [fuseCluster, h1, h2, h3, h4, h6', h7, Bool.not_true, Bool.false_eq_true,
    if_false, if_true]

/-- The mention dictionary of the C10 witness: mention 1 spans token 0 and
mention 2 spans token 1, the last token. -/
def c10Md : MentionDict :=
  [(1, { start := 0, end_ := some 0 }), (2, { start := 1, end_ := some 1 })]

/-- C10 witness: the out-of-range branch is reachable — both for the fusion
step at a concrete state and from a whole paragraph run. -/
theorem c10_witness :
    fuseCluster true ["(", "x"] (c10Md, []) [1, 2] = .error "IndexError"
  ∧ runParagraph
      { use_appos := true, use_exappos := false, use_aliases := false,
        remove_singletons := false } ["(", "a", "b"]
      [["PROPER[1]","APPOS[1_2]"],["NOUN[2]"],["NOUN[2]"]] = .error "IndexError" :=
  ⟨c10_paren_repair_not_total ["(", "x"] c10Md [] 1 [2] 2
      { start := 0, end_ := some 0 } { start := 1, end_ := some 1 } 1
      (by decide) (by decide) (by decide) (by decide) (by decide) (by decide),
   by decide⟩

/-! ## Claim C4: which cluster members enter the bare-appositive set -/

/-- The mention dictionary of the C4 counterexample. -/
def c4Md : MentionDict := [(1, { start := 0 }), (2, { start := 0 }), (3, { start := 0 })]

/-- C4 counterexample: the appositive pairs [(1,2),(1,3)] form the single
cluster {1,2,3}, whose sorted tuple has head 1 and non-head members 2 and 3;
only 2 — the element at index 1 — enters the bare-appositive set, and the
non-head member 3 does not, contradicting "every non-head member of the tuple
is recorded". -/
theorem c4_counterexample :
    _handle_appositives false ["a"] [(1,2),(1,3)] c4Md [] = .ok (c4Md, [2])
  ∧ ((3 : Int) ∈ ([2] : ISet) → False) :=
  ⟨by decide, by decide⟩

theorem fuseCluster_appos (ua : Bool) (tokens : List String)
    (st st2 : MentionDict × ISet) (tup : List Int) :
    fuseCluster ua tokens st tup = .ok st2 →
    ∃ m1, tup[1]? = some m1 ∧ st2.2 = setInsert m1 st.2 := by
  intro h
  unfold fuseCluster at h
  cases h1 : tup[1]? with
  | none =>
    rw [h1] at h
    simp at h
  | some m1 =>
    rw [h1] at h
    refine ⟨m1, rfl, ?_⟩
    simp only [] at h
    repeat' split at h
    all_goals simp_all
    all_goals rw [← h]

theorem handleAppositives_appos_aux (ua : Bool) (tokens : List String) :
    ∀ (tups : List (List Int)) (st st2 : MentionDict × ISet),
    exceptFoldl (fuseCluster ua tokens) st tups = .ok st2 →
    st2.2 = tups.foldl
      (fun s tup => match tup[1]? with | some m => setInsert m s | none => s) st.2 := by
  intro tups
  induction tups with
  | nil =>
    intro st st2 h
    simp [exceptFoldl] at h
    rw [List.foldl_nil, ← h]
  | cons tup tups ih =>
    intro st st2 h
    rw [exceptFoldl] at h
    cases hf : fuseCluster ua tokens st tup with
    | error e =>
      rw [hf] at h
      simp at h
    | ok st1 =>
      rw [hf] at h
      simp only [] at h
      rcases fuseCluster_appos ua tokens st st1 tup hf with ⟨m1, hm1, hsnd⟩
      simp only [List.foldl_cons, hm1]
      rw [← hsnd]
      exact ih st1 st2 h

/-- C4 amended: whenever `_handle_appositives` completes, the resulting
bare-appositive set extends the incoming one with exactly the element at index
1 of each sorted cluster tuple — the second-lowest member — for both values of
`use_appos`; members beyond index 1 of larger clusters are never recorded. -/
theorem c4_amended_second_member_only (ua : Bool) (tokens : List String)
    (pairs : List (Int × Int)) (md md' : MentionDict) (app0 app' : ISet) :
    _handle_appositives ua tokens pairs md app0 = .ok (md', app') →
    app' = ((_group_mentions_into_clusters pairs).map sortedList).foldl
      (fun s tup => match tup[1]? with | some m => setInsert m s | none => s) app0 := by
  intro h
  unfold _handle_appositives at h
  exact handleAppositives_appos_aux ua tokens _ (md, app0) (md', app') h

/-- C4 witness: the amended statement at the three-member cluster input. -/
theorem c4_amended_witness :
    _handle_appositives false [] [(1,2),(1,3)] [] [] = .ok ([], [2])
  ∧ ([2] : ISet) = ((_group_mentions_into_clusters [(1,2),(1,3)]).map sortedList).foldl
      (fun s tup => match tup[1]? with | some m => setInsert m s | none => s) [] := by
  have h : _handle_appositives false [] [(1,2),(1,3)] [] [] = .ok ([], [2]) := by decide
  exact ⟨h, c4_amended_second_member_only false [] [(1,2),(1,3)] [] [] [] [2] h⟩

/-! ## Claim C5: bare-appositive disposal versus the final output -/

/-- The flag setting of the C5 counterexample. -/
def c5Flags : Flags :=
  { use_appos := false, use_exappos := false, use_aliases := false, remove_singletons := false }

def c5Tokens : List String := ["a","b"]

def c5Labels : List (List String) := [["PROPER[1]","APPOS[1_2]","ALIAS[1_2]"],["NOUN[2]"]]

/-- C5 counterexample: mention 2 is in the bare-appositive set and is an
endpoint of the coreference pair (1,2) arising from `ALIAS[1_2]`, and every
referenced identifier exists as a mention; yet with `use_aliases = false` the
later alias removal drops it, so it is absent from the final output — the
"retained in the final output iff an endpoint" biconditional fails for this
policy-flag setting. -/
theorem c5_counterexample :
    scanLinkLabels false false c5Labels
      { mention_pairs := [], appositive_pairs := [], aliases := [], exappos_mentions := [] } =
      .ok { mention_pairs := [(1,2)], appositive_pairs := [(1,2)],
            aliases := [2], exappos_mentions := [] }
  ∧ (runParagraph c5Flags c5Tokens c5Labels).map
      (fun s => (s.mention_dict.map (fun p => p.1), s.appos_mentions)) = .ok ([1], [2]) :=
  ⟨by decide, by decide⟩

theorem mdHasKey_filter_ne (md : MentionDict) (m x : Int) :
    mdHasKey (md.filter (fun p => !(p.1 == m))) x = (mdHasKey md x && !(x == m)) := by
  induction md with
  | nil => simp [mdHasKey]
  | cons p md ih =>
    unfold mdHasKey at ih ⊢
    by_cases hp : p.1 = m
    · rw [List.filter_cons_of_neg (by simp [hp])]
      rw [ih, List.any_cons]
      by_cases hx : x = m
      · subst hx
        simp
      · have hpx : (p.1 == x) = false := by
          rw [hp]
          simp only [beq_eq_false_iff_ne, ne_eq]
          exact fun hh => hx hh.symm
        rw [hpx]
        simp
    · rw [List.filter_cons_of_pos (by simp [hp])]
      rw [List.any_cons, List.any_cons, ih]
      by_cases hx : x = m
      · subst hx
        have hpx : (p.1 == x) = false := by
          simpa using hp
        rw [hpx]
        simp
      · have hxm : (x == m) = false := by
          simpa using hx
        rw [hxm]
        simp

theorem mdPop_ok {md : MentionDict} {k : Int} (h : mdHasKey md k = true) :
    mdPop md k = .ok (md.filter (fun p => !(p.1 == k))) := by
  unfold mdPop
  rw [if_pos h]

/-- C5 amended: at the disposal step inside `_extract_coreference_links`
(before cluster assignment, singleton removal and alias/extended-appositive
removal), a bare-appositive mention is retained iff it is an endpoint of some
coreference pair, under the precondition that every bare-appositive member
exists in the mention set; identifiers outside the bare-appositive set are
untouched. -/
theorem c5_amended_disposal_iff : ∀ (appos : ISet), appos.Nodup →
    ∀ (endpoints : ISet) (md : MentionDict),
    (∀ m ∈ appos, mdHasKey md m = true) →
    ∀ md', disposeAppos appos endpoints md = .ok md' →
    (∀ m ∈ appos, (mdHasKey md' m = true ↔ endpoints.contains m = true)) ∧
    (∀ k : Int, k ∉ appos → mdHasKey md' k = mdHasKey md k) := by
  intro appos
  induction appos with
  | nil =>
    intro _ endpoints md _ md' h
    simp [disposeAppos, exceptFoldl] at h
    subst h
    exact ⟨by simp, fun _ _ => rfl⟩
  | cons m rest ih =>
    intro hnd endpoints md hkeys md' h
    rcases List.nodup_cons.mp hnd with ⟨hm, hrest⟩
    unfold disposeAppos at h
    rw [exceptFoldl] at h
    cases hc : endpoints.contains m with
    | true =>
      rw [if_pos (by rw [hc])] at h
      have h' : disposeAppos rest endpoints md = .ok md' := h
      rcases ih hrest endpoints md
          (fun x hx => hkeys x (List.mem_cons_of_mem m hx)) md' h' with ⟨ih1, ih2⟩
      constructor
      · intro x hx
        rcases List.mem_cons.mp hx with hxm | hx
        · subst hxm
          rw [ih2 x hm, hkeys x (List.mem_cons_self x rest), hc]
        · exact ih1 x hx
      · intro k hk
        exact ih2 k (fun hk' => hk (List.mem_cons_of_mem m hk'))
    | false =>
      rw [if_neg (by rw [hc]; simp)] at h
      rw [mdPop_ok (hkeys m (List.mem_cons_self m rest))] at h
      have h' : disposeAppos rest endpoints (md.filter (fun p => !(p.1 == m))) = .ok md' := h
      have hkeys2 : ∀ x ∈ rest, mdHasKey (md.filter (fun p => !(p.1 == m))) x = true := by
        intro x hx
        rw [mdHasKey_filter_ne]
        have hxm : (x == m) = false := by
          simp only [beq_eq_false_iff_ne, ne_eq]
          exact fun hh => hm (hh ▸ hx)
        rw [hkeys x (List.mem_cons_of_mem m hx), hxm]
        rfl
      rcases ih hrest endpoints _ hkeys2 md' h' with ⟨ih1, ih2⟩
      constructor
      · intro x hx
        rcases List.mem_cons.mp hx with hxm | hx
        · subst hxm
          rw [ih2 x hm, mdHasKey_filter_ne]
          simp only [beq_self_eq_true, Bool.not_true, Bool.and_false, hc]
        · exact ih1 x hx
      · intro k hk
        have hkm : (k == m) = false := by
          simp only [beq_eq_false_iff_ne, ne_eq]
          exact fun hh => hk (hh ▸ List.mem_cons_self m rest)
        rw [ih2 k (fun hk' => hk (List.mem_cons_of_mem m hk')), mdHasKey_filter_ne, hkm]
        simp

/-- The mention dictionary of the C5 witness. -/
def c5Md : MentionDict := [(1, { start := 0 }), (2, { start := 1 })]

/-- C5 witness: the amended disposal biconditional at concrete inputs — with
endpoint list [1,2] the bare-appositive mention 2 is retained, with no
endpoints it is dropped. -/
theorem c5_amended_witness :
    disposeAppos [2] [1,2] c5Md = .ok c5Md
  ∧ (mdHasKey c5Md 2 = true ↔ List.contains ([1,2] : ISet) 2 = true)
  ∧ disposeAppos [2] [] c5Md = .ok [(1, { start := 0 })]
  ∧ (mdHasKey [(1, { start := 0 })] 2 = true ↔ List.contains ([] : ISet) 2 = true) := by
  have h1 : disposeAppos [2] [1,2] c5Md = .ok c5Md := by decide
  have h2 : disposeAppos [2] [] c5Md = .ok [(1, { start := 0 })] := by decide
  refine ⟨h1, ?_, h2, ?_⟩
  · exact (c5_amended_disposal_iff [2] (by decide) [1,2] c5Md (by decide) c5Md h1).1 2
      (by decide)
  · exact (c5_amended_disposal_iff [2] (by decide) [] c5Md (by decide) _ h2).1 2
      (by decide)

/-! ## Claim C3: placeholder handling and the span-boundary rule -/

/-- C3 counterexample: at position 1 the label list holds the placeholder "_"
next to "NOUN[1]"; the claim says only the placeholder is skipped and the
other labels are still processed (which would set mention 1's end to 1, the
last position of its verbatim repetition), but the code skips the entire
position, leaving mention 1 with a start and no end. Deleting the placeholder
from the same input closes the span as the claim predicts. -/
theorem c3_counterexample :
    _extract_mentions ["a","b"] [["NOUN[1]"],["NOUN[1]","_"]] [] = .ok [(1, { start := 0 })]
  ∧ _extract_mentions ["a","b"] [["NOUN[1]"],["NOUN[1]"]] [] =
      .ok [(1, { start := 0, end_ := some 1, text := some ["a","b"],
                 type_ := some "NOUN" })] :=
  ⟨by decide, by decide⟩

theorem mdFind_isSome_eq_hasKey (md : MentionDict) (k : Int) :
    (mdFind md k).isSome = mdHasKey md k := by
  induction md with
  | nil => simp [mdFind, mdHasKey]
  | cons p md ih =>
    unfold mdFind mdHasKey at ih ⊢
    cases hp : (p.1 == k) with
    | true => simp [List.find?_cons, List.any_cons, hp]
    | false => simp [List.find?_cons, List.any_cons, hp, ih]

theorem mdFind_eq_none_of_not_hasKey {md : MentionDict} {k : Int}
    (h : ¬ mdHasKey md k = true) : mdFind md k = none := by
  cases hmd : mdFind md k with
  | none => rfl
  | some v =>
    exfalso
    apply h
    rw [← mdFind_isSome_eq_hasKey, hmd]
    rfl

/-- The recorded (start, end) of mention `m` after a fallible extraction step. -/
def mentionFields (r : Except String MentionDict) (m : Int) :
    Except String (Option (Nat × Option Nat)) :=
  r.map (fun md => (mdFind md m).map (fun x => (x.start, x.end_)))

/-- C3 amended: (a) when the placeholder `"_"` occurs anywhere in a position's
label list, the entire position is skipped — no label there is processed; (b)
for a processed mention label, the span end is set to `i` exactly when `i` is
the last position or the identical label string does not reappear verbatim at
position `i+1` (the start staying at its first-sight value); (c) otherwise the
previously recorded end (none on first sight) is kept. -/
theorem c3_amended_placeholder_and_boundary (tokens : List String)
    (labels : List (List String)) (i : Nat) (ll : List String) (md : MentionDict)
    (label p1 : String) (m : Int) :
    (ll.contains "_" = true → extractMentionsPos tokens labels i ll md = .ok md)
  ∧ (isRelationLabel label = false → (label.length == 0) = false →
      (pySplit label '[')[1]? = some p1 → pyToInt (pyDropLast p1) = some m →
      ((i == labels.length - 1) || !((labels.getD (i+1) []).contains label)) = true →
      mentionFields (extractMentionsLabel tokens labels i md label) m =
        .ok (some ((mdFind md m).elim i (fun x => x.start), some i)))
  ∧ (isRelationLabel label = false → (label.length == 0) = false →
      (pySplit label '[')[1]? = some p1 → pyToInt (pyDropLast p1) = some m →
      ((i == labels.length - 1) || !((labels.getD (i+1) []).contains label)) = false →
      mentionFields (extractMentionsLabel tokens labels i md label) m =
        .ok (some ((mdFind md m).elim i (fun x => x.start),
                   (mdFind md m).elim none (fun x => x.end_)))) := by
  refine ⟨?_, ?_, ?_⟩
  · intro h
    unfold extractMentionsPos
    rw [if_pos h]
  · intro h1 h2 h3 h4 h5
    unfold mentionFields extractMentionsLabel
    rw [if_neg (by simp [h1]), if_neg (by simp [h2]), h3]
    simp only []
    rw [h4]
    simp only []
    rw [if_pos h5]
    by_cases hk : mdHasKey md m = true
    · rw [if_pos hk]
      have hs : (mdFind md m).isSome := by
        rw [mdFind_isSome_eq_hasKey]
        exact hk
      rcases Option.isSome_iff_exists.mp hs with ⟨info0, hinfo⟩
      rw [hinfo]
      simp only [Except.map, mdFind_mdInsert_self, Option.map_some', Option.elim_some]
    · rw [if_neg hk]
      rw [mdFind_eq_none_of_not_hasKey hk]
      simp only [Except.map, mdFind_mdInsert_self, Option.map_some', Option.elim_none]
  · intro h1 h2 h3 h4 h5
    unfold mentionFields extractMentionsLabel
    rw [if_neg (by simp [h1]), if_neg (by simp [h2]), h3]
    simp only []
    rw [h4]
    simp only []
    have h5' : ¬((i == labels.length - 1) || !((labels.getD (i+1) []).contains label)) = true := by
      rw [h5]
      simp
    rw [if_neg h5']
    by_cases hk : mdHasKey md m = true
    · rw [if_pos hk]
      have hs : (mdFind md m).isSome := by
        rw [mdFind_isSome_eq_hasKey]
        exact hk
      rcases Option.isSome_iff_exists.mp hs with ⟨info0, hinfo⟩
      rw [hinfo]
      simp only [Except.map, hinfo, Option.map_some', Option.elim_some]
    · rw [if_neg hk]
      rw [mdFind_eq_none_of_not_hasKey hk]
      simp only [Except.map, mdFind_mdInsert_self, Option.map_some', Option.elim_none]

/-- C3 witness: the amended behaviour at concrete positions — a placeholder
position is skipped whole; a boundary position records end = i; a
continuation position leaves the end unset. -/
theorem c3_amended_witness :
    extractMentionsPos ["a","b"] [["NOUN[1]"],["NOUN[1]","_"]] 1 ["NOUN[1]","_"]
      [(1, { start := 0 })] = .ok [(1, { start := 0 })]
  ∧ mentionFields (extractMentionsLabel ["a","b"] [["NOUN[1]"],["NOUN[1]"]] 1
      [(1, { start := 0 })] "NOUN[1]") 1 = .ok (some (0, some 1))
  ∧ mentionFields (extractMentionsLabel ["a","b"] [["NOUN[1]"],["NOUN[1]"]] 0 [] "NOUN[1]") 1 =
      .ok (some (0, none)) :=
  ⟨(c3_amended_placeholder_and_boundary ["a","b"] [["NOUN[1]"],["NOUN[1]","_"]] 1
      ["NOUN[1]","_"] [(1, { start := 0 })] "" "" 0).1 (by decide),
   (c3_amended_placeholder_and_boundary ["a","b"] [["NOUN[1]"],["NOUN[1]"]] 1
      ["NOUN[1]"] [(1, { start := 0 })] "NOUN[1]" "1]" 1).2.1
      (by decide) (by decide) (by decide) (by decide) (by decide),
   (c3_amended_placeholder_and_boundary ["a","b"] [["NOUN[1]"],["NOUN[1]"]] 0
      [] [] "NOUN[1]" "1]" 1).2.2
      (by decide) (by decide) (by decide) (by decide) (by decide)⟩

/-! ## Claim C1: span bounds of surviving mentions -/

/-- The claim's property: every surviving mention has a recorded end with
`0 ≤ start ≤ end < n`. -/
def SpanValid (n : Nat) (md : MentionDict) : Prop :=
  ∀ p ∈ md, ∃ e, p.2.end_ = some e ∧ p.2.start ≤ e ∧ e < n

/-- What the code guarantees: every start is below `n` and every recorded end
is below `n` (`0 ≤ start` holds because indices are naturals). -/
def MdBounded (n : Nat) (md : MentionDict) : Prop :=
  ∀ p ∈ md, p.2.start < n ∧ ∀ e, p.2.end_ = some e → e < n

theorem MdBounded_mdInsert {n : Nat} {md : MentionDict} {k : Int} {v : MentionInfo}
    (hmd : MdBounded n md) (hs : v.start < n) (he : ∀ e, v.end_ = some e → e < n) :
    MdBounded n (mdInsert md k v) := by
  intro p hp
  rcases mem_mdInsert hp with rfl | hp
  · exact ⟨hs, he⟩
  · exact hmd p hp

theorem MdBounded_filter {n : Nat} {md : MentionDict} {f : Int × MentionInfo → Bool}
    (hmd : MdBounded n md) : MdBounded n (md.filter f) :=
  fun p hp => hmd p (List.mem_of_mem_filter hp)

theorem mdFind_some_mem {md : MentionDict} {k : Int} {v : MentionInfo}
    (h : mdFind md k = some v) : ∃ k', (k', v) ∈ md := by
  unfold mdFind at h
  rcases Option.map_eq_some'.mp h with ⟨p, hp, he⟩
  refine ⟨p.1, ?_⟩
  rw [← he]
  exact List.mem_of_find?_eq_some hp

theorem mdPop_ok_eq {md md' : MentionDict} {k : Int} (h : mdPop md k = .ok md') :
    md' = md.filter (fun p => !(p.1 == k)) := by
  unfold mdPop at h
  split at h
  · simp only [Except.ok.injEq] at h
    exact h.symm
  · simp at h

theorem extractMentionsLabel_bounded {n : Nat} {tokens : List String}
    {labels : List (List String)} {i : Nat} {md md' : MentionDict} {label : String}
    (hi : i < n) (hmd : MdBounded n md)
    (h : extractMentionsLabel tokens labels i md label = .ok md') : MdBounded n md' := by
  unfold extractMentionsLabel at h
  by_cases h1 : isRelationLabel label = true
  · rw [if_pos h1] at h
    cases h
    exact hmd
  · rw [if_neg h1] at h
    by_cases h2 : (label.length == 0) = true
    · rw [if_pos h2] at h
      cases h
      exact hmd
    · rw [if_neg h2] at h
      cases h3 : (pySplit label '[')[1]? with
      | none =>
        simp only [h3] at h
        cases h
      | some p1 =>
        simp only [h3] at h
        cases h4 : pyToInt (pyDropLast p1) with
        | none =>
          simp only [h4] at h
          cases h
        | some mid =>
          simp only [h4] at h
          have hmd1 : MdBounded n
              (if mdHasKey md mid then md else mdInsert md mid { start := i }) := by
            split
            · exact hmd
            · exact MdBounded_mdInsert hmd hi (by intro e he; simp at he)
          by_cases h5 : ((i == labels.length - 1) ||
              !((labels.getD (i+1) []).contains label)) = true
          · rw [if_pos h5] at h
            cases h6 : mdFind (if mdHasKey md mid then md
                else mdInsert md mid { start := i }) mid with
            | none =>
              simp only [h6] at h
              cases h
            | some info =>
              simp only [h6] at h
              simp only [Except.ok.injEq] at h
              rw [← h]
              apply MdBounded_mdInsert hmd1
              · rcases mdFind_some_mem h6 with ⟨k', hk'⟩
                exact (hmd1 _ hk').1
              · intro e he
                simp only [Option.some.injEq] at he
                omega
          · rw [if_neg h5] at h
            simp only [Except.ok.injEq] at h
            rw [← h]
            exact hmd1

theorem extractMentionsPos_bounded {n : Nat} {tokens : List String}
    {labels : List (List String)} {i : Nat} {ll : List String} {md md' : MentionDict}
    (hi : i < n) (hmd : MdBounded n md)
    (h : extractMentionsPos tokens labels i ll md = .ok md') : MdBounded n md' := by
  unfold extractMentionsPos at h
  split at h
  · cases h
    exact hmd
  · exact exceptFoldl_inv
      (fun b a b' hP hstep => extractMentionsLabel_bounded hi hP hstep) ll hmd h

theorem extractMentionsAux_bounded {n : Nat} {tokens : List String}
    {labels : List (List String)} (hn : labels.length ≤ n) :
    ∀ (rest : List (List String)) (i : Nat) (md md' : MentionDict),
    i + rest.length = labels.length →
    MdBounded n md →
    extractMentionsAux tokens labels i rest md = .ok md' → MdBounded n md' := by
  intro rest
  induction rest with
  | nil =>
    intro i md md' _ hmd h
    simp [extractMentionsAux] at h
    rw [← h]
    exact hmd
  | cons ll rest ih =>
    intro i md md' hlen hmd h
    rw [extractMentionsAux] at h
    cases hp : extractMentionsPos tokens labels i ll md with
    | error e =>
      rw [hp] at h
      simp at h
    | ok md1 =>
      rw [hp] at h
      simp only [] at h
      have hi : i < n := by
        simp only [List.length_cons] at hlen
        omega
      exact ih (i+1) md1 md' (by simp only [List.length_cons] at hlen; omega)
        (extractMentionsPos_bounded hi hmd hp) h

theorem extract_mentions_bounded {n : Nat} {tokens : List String}
    {labels : List (List String)} {md md' : MentionDict} (hn : labels.length ≤ n)
    (hmd : MdBounded n md) (h : _extract_mentions tokens labels md = .ok md') :
    MdBounded n md' :=
  extractMentionsAux_bounded hn labels 0 md md' (by omega) hmd h

theorem fuseCluster_bounded {ua : Bool} {tokens : List String}
    {st st2 : MentionDict × ISet} {tup : List Int}
    (hmd : MdBounded tokens.length st.1)
    (h : fuseCluster ua tokens st tup = .ok st2) : MdBounded tokens.length st2.1 := by
  unfold fuseCluster at h
  cases h1 : tup[1]? with
  | none =>
    simp only [h1] at h
    cases h
  | some m1 =>
    simp only [h1] at h
    by_cases hu : (!ua) = true
    · rw [if_pos hu] at h
      simp only [Except.ok.injEq] at h
      rw [← h]
      exact hmd
    · rw [if_neg hu] at h
      cases tup with
      | nil => simp at h1
      | cons m0 rest =>
        cases h2 : mdFind st.1 m0 with
        | none =>
          simp only [h2] at h
          cases h
        | some info0 =>
          simp only [h2] at h
          cases h3 : mdFind st.1 ((m0 :: rest).getLastD 0) with
          | none =>
            simp only [h3] at h
            cases h
          | some infolast =>
            simp only [h3] at h
            cases h4 : infolast.end_ with
            | none =>
              simp only [h4] at h
              cases h
            | some nse =>
              simp only [h4] at h
              have hstart : info0.start < tokens.length := by
                rcases mdFind_some_mem h2 with ⟨k', hk'⟩
                exact (hmd _ hk').1
              have hnse : nse < tokens.length := by
                rcases mdFind_some_mem h3 with ⟨k', hk'⟩
                exact (hmd _ hk').2 nse h4
              have hmd1 : MdBounded tokens.length
                  (mdInsert st.1 m0
                    { info0 with
                        end_ := some nse,
                        text := some ((tokens.drop info0.start).take (nse + 1 - info0.start)) }) := by
                refine MdBounded_mdInsert hmd ?_ ?_
                · exact hstart
                · intro e he
                  simp only [Option.some.injEq] at he
                  omega
              by_cases h5 : ((((tokens.drop info0.start).take (nse + 1 - info0.start)).count "(" ==
                  ((tokens.drop info0.start).take (nse + 1 - info0.start)).count ")" + 1) = true)
              · rw [if_pos h5] at h
                cases h6 : tokens[nse + 1]? with
                | none =>
                  simp only [h6] at h
                  cases h
                | some tnext =>
                  simp only [h6] at h
                  have hlt : nse + 1 < tokens.length := by
                    by_contra hc
                    push_neg at hc
                    rw [List.getElem?_eq_none hc] at h6
                    cases h6
                  by_cases h7 : (tnext == ")") = true
                  · rw [if_pos h7] at h
                    simp only [Except.ok.injEq] at h
                    rw [← h]
                    refine MdBounded_mdInsert hmd1 ?_ ?_
                    · exact hstart
                    · intro e he
                      simp only [Option.some.injEq] at he
                      omega
                  · rw [if_neg h7] at h
                    simp only [Except.ok.injEq] at h
                    rw [← h]
                    exact hmd1
              · rw [if_neg h5] at h
                simp only [Except.ok.injEq] at h
                rw [← h]
                exact hmd1

theorem handle_appositives_bounded {ua : Bool} {tokens : List String}
    {pairs : List (Int × Int)} {md md' : MentionDict} {app0 app' : ISet}
    (hmd : MdBounded tokens.length md)
    (h : _handle_appositives ua tokens pairs md app0 = .ok (md', app')) :
    MdBounded tokens.length md' := by
  unfold _handle_appositives at h
  have := exceptFoldl_inv (P := fun st : MentionDict × ISet => MdBounded tokens.length st.1)
    (fun b a b' hP hstep => fuseCluster_bounded hP hstep) _ hmd h
  exact this

theorem disposeAppos_bounded {n : Nat} {appos endpoints : ISet} {md md' : MentionDict}
    (hmd : MdBounded n md) (h : disposeAppos appos endpoints md = .ok md') :
    MdBounded n md' := by
  unfold disposeAppos at h
  refine exceptFoldl_inv (P := MdBounded n) ?_ appos hmd h
  intro b a b' hP hstep
  split at hstep
  · cases hstep
    exact hP
  · rw [mdPop_ok_eq hstep]
    exact MdBounded_filter hP

theorem extract_coreference_links_bounded {ua ue uap : Bool} {tokens : List String}
    {labels : List (List String)} {md : MentionDict} {al ex : List Int} {app : ISet}
    {lr : LinksResult} (hmd : MdBounded tokens.length md)
    (h : _extract_coreference_links ua ue uap tokens labels md al ex app = .ok lr) :
    MdBounded tokens.length lr.mention_dict := by
  unfold _extract_coreference_links at h
  cases h1 : scanLinkLabels ua ue labels
      { mention_pairs := [], appositive_pairs := [], aliases := al,
        exappos_mentions := ex } with
  | error e => rw [h1] at h; simp at h
  | ok ls =>
    rw [h1] at h
    simp only [] at h
    cases h2 : _handle_appositives uap tokens ls.appositive_pairs md app with
    | error e => rw [h2] at h; simp at h
    | ok st2 =>
      rw [h2] at h
      simp only [] at h
      cases h3 : disposeAppos st2.2 (endpointsOf ls.mention_pairs) st2.1 with
      | error e => rw [h3] at h; simp at h
      | ok md3 =>
        rw [h3] at h
        simp only [Except.ok.injEq] at h
        rw [← h]
        have hb2 : MdBounded tokens.length st2.1 := by
          rcases st2 with ⟨md2, app2⟩
          exact handle_appositives_bounded hmd h2
        exact disposeAppos_bounded hb2 h3

theorem MdBounded_assignLabels {n : Nat} {clusters : List ISet} {md : MentionDict}
    (hmd : MdBounded n md) : MdBounded n (assignLabels clusters md) := by
  intro p hp
  unfold assignLabels at hp
  rcases List.mem_map.mp hp with ⟨q, hq, he⟩
  cases hcl : clusterIndexOf clusters q.1 with
  | none =>
    rw [hcl] at he
    rw [← he]
    exact hmd q hq
  | some j =>
    rw [hcl] at he
    rw [← he]
    exact ⟨(hmd q hq).1, (hmd q hq).2⟩

theorem assign_mentions_bounded {n : Nat} {rs : Bool} {clusters : List ISet}
    {md md' : MentionDict} (hmd : MdBounded n md)
    (h : _assign_mentions_to_clusters rs clusters md = .ok md') : MdBounded n md' := by
  unfold _assign_mentions_to_clusters at h
  split at h
  · refine exceptFoldl_inv (P := MdBounded n) ?_ _ (MdBounded_assignLabels hmd) h
    intro b a b' hP hstep
    rw [mdPop_ok_eq hstep]
    exact MdBounded_filter hP
  · cases h
    exact MdBounded_assignLabels hmd

theorem removeIds_bounded {n : Nat} {ids : List Int} {md md' : MentionDict}
    {cl cl' : List ISet} (hmd : MdBounded n md)
    (h : removeIds ids md cl = .ok (md', cl')) : MdBounded n md' := by
  unfold removeIds at h
  have := exceptFoldl_inv (P := fun st : MentionDict × List ISet => MdBounded n st.1)
    ?_ ids hmd h
  · exact this
  · intro b a b' hP hstep
    cases hpop : mdPop b.1 a with
    | error e => rw [hpop] at hstep; simp at hstep
    | ok bmd =>
      rw [hpop] at hstep
      simp only [Except.ok.injEq] at hstep
      rw [← hstep]
      rw [mdPop_ok_eq hpop]
      exact MdBounded_filter hP

theorem get_coref_info_bounded {fl : Flags} {s s' : PState}
    (hlen : s.labels.length ≤ s.tokens.length)
    (hmd : MdBounded s.tokens.length s.mention_dict)
    (h : get_coref_info fl s = .ok s') :
    s'.tokens = s.tokens ∧ MdBounded s.tokens.length s'.mention_dict := by
  unfold get_coref_info at h
  cases h1 : _extract_mentions s.tokens s.labels s.mention_dict with
  | error e => rw [h1] at h; simp at h
  | ok md =>
    rw [h1] at h
    simp only [] at h
    cases h2 : _extract_coreference_links fl.use_aliases fl.use_exappos fl.use_appos
        s.tokens s.labels md s.aliases s.exappos_mentions s.appos_mentions with
    | error e => rw [h2] at h; simp at h
    | ok lr =>
      rw [h2] at h
      simp only [] at h
      cases h3 : _assign_mentions_to_clusters fl.remove_singletons lr.clusters
          lr.mention_dict with
      | error e => rw [h3] at h; simp at h
      | ok md4 =>
        rw [h3] at h
        simp only [] at h
        have hb1 : MdBounded s.tokens.length md := extract_mentions_bounded hlen hmd h1
        have hb2 : MdBounded s.tokens.length lr.mention_dict :=
          extract_coreference_links_bounded hb1 h2
        have hb4 : MdBounded s.tokens.length md4 := assign_mentions_bounded hb2 h3
        cases h4 : (if fl.use_aliases then Except.ok (md4, lr.clusters)
            else _remove_aliases lr.aliases md4 lr.clusters) with
        | error e => rw [h4] at h; simp at h
        | ok st5 =>
          rw [h4] at h
          simp only [] at h
          have hb5 : MdBounded s.tokens.length st5.1 := by
            rcases st5 with ⟨md5, cl5⟩
            split at h4
            · simp only [Except.ok.injEq] at h4
              rw [Prod.mk.injEq] at h4
              rw [← h4.1]
              exact hb4
            · exact removeIds_bounded hb4 h4
          cases h5 : (if fl.use_exappos then Except.ok (st5.1, st5.2)
              else _remove_exappos lr.exappos_mentions st5.1 st5.2) with
          | error e =>
            rcases st5 with ⟨md5, cl5⟩
            rw [h5] at h
            simp at h
          | ok st6 =>
            rcases st5 with ⟨md5, cl5⟩
            rw [h5] at h
            simp only [] at h
            rcases st6 with ⟨md6, cl6⟩
            have hb6 : MdBounded s.tokens.length md6 := by
              split at h5
              · simp only [Except.ok.injEq] at h5
                rw [Prod.mk.injEq] at h5
                rw [← h5.1]
                exact hb5
              · exact removeIds_bounded hb5 h5
            simp only [Except.ok.injEq] at h
            rw [← h]
            exact ⟨rfl, hb6⟩

/-- C1 amended: for every paragraph (token and label sequences of equal
length, as the segmenter produces) and every policy-flag setting, when the run
completes, every surviving mention of the emitted record satisfies
`0 ≤ start < len(tokens)` and, whenever an end was recorded,
`end < len(tokens)`; `start ≤ end` and the presence of `end` are NOT
guaranteed (appositive fusion can produce `end < start`, and a span
interrupted by a placeholder position can stay unclosed). -/
theorem c1_amended_span_bounds (fl : Flags) (tokens : List String)
    (labels : List (List String)) (s' : PState) :
    labels.length = tokens.length →
    runParagraph fl tokens labels = .ok s' →
    s'.tokens = tokens ∧ MdBounded tokens.length s'.mention_dict := by
  intro hlen h
  have := get_coref_info_bounded (s := initState tokens labels)
    (by simp [initState, hlen]) (by intro p hp; simp [initState] at hp) h
  simpa [initState] using this

/-- The flag setting of the C1 counterexample. -/
def c1Flags : Flags :=
  { use_appos := true, use_exappos := false, use_aliases := false, remove_singletons := false }

def c1Tokens : List String := ["x","y","z","a","b","c"]

def c1Labels : List (List String) :=
  [["NOUN[2]"],["NOUN[2]"],["PRONOUN[3]"],["PRONOUN[3]","_"],
   ["PROPER[1]","APPOS[1_2]"],["PROPER[1]"]]

/-- The mention dictionary the C1 counterexample paragraph emits. -/
def c1BadMd : MentionDict :=
  [(3, { start := 2 }),
   (1, { start := 4, end_ := some 1, text := some [], type_ := some "PROPER" })]

/-- C1 counterexample: in this paragraph's emitted record, mention 1 has start
4 and end 1 (its appositive phrase lies before the head, so fusion reversed
the span) and mention 3 has no recorded end at all (position 3 holds a
placeholder next to its label, so the whole position is skipped and the span
never closes); `0 ≤ start ≤ end < len(tokens)` fails for the surviving
mentions. -/
theorem c1_counterexample :
    (runParagraph c1Flags c1Tokens c1Labels).map (fun s => s.mention_dict) = .ok c1BadMd
  ∧ ¬ SpanValid c1Tokens.length c1BadMd := by
  refine ⟨by decide, ?_⟩
  intro hsv
  rcases hsv (1, { start := 4, end_ := some 1, text := some [], type_ := some "PROPER" })
      (by decide) with ⟨e, he, hle, _⟩
  have he' : (1 : Nat) = e := by injection he
  rw [← he'] at hle
  exact absurd hle (by decide)

/-- The flag setting of the C1 witness (the spec's own fusion example). -/
def c1GoodFlags : Flags :=
  { use_appos := true, use_exappos := false, use_aliases := false, remove_singletons := false }

def c1GoodTokens : List String := ["Mas","Ahmad","umur","45","tahun","Dia"]

def c1GoodLabels : List (List String) :=
  [["PROPER[1]","APPOS[1_2]","IDENT[1_3]"],["PROPER[1]"],["NOUN[2]"],["NOUN[2]"],
   ["NOUN[2]"],["PRONOUN[3]"]]

/-- The final state of the C1 witness paragraph. -/
def c1GoodState : PState :=
  { text := "", tokens := c1GoodTokens, labels := c1GoodLabels,
    mention_dict :=
      [(1, { start := 0, end_ := some 4, text := some ["Mas","Ahmad","umur","45","tahun"],
             type_ := some "PROPER", label := some 0 }),
       (3, { start := 5, end_ := some 5, text := some ["Dia"], type_ := some "PRONOUN",
             label := some 0 })],
    clusters := [[1, 3]], aliases := [], exappos_mentions := [], appos_mentions := [2] }

/-- C1 witness: the amended bounds at the spec's fusion example. -/
theorem c1_amended_witness :
    runParagraph c1GoodFlags c1GoodTokens c1GoodLabels = .ok c1GoodState
  ∧ c1GoodState.tokens = c1GoodTokens
  ∧ MdBounded c1GoodTokens.length c1GoodState.mention_dict := by
  have h : runParagraph c1GoodFlags c1GoodTokens c1GoodLabels = .ok c1GoodState := by decide
  have h2 := c1_amended_span_bounds c1GoodFlags c1GoodTokens c1GoodLabels c1GoodState
    (by decide) h
  exact ⟨h, h2.1, h2.2⟩

theorem segLine_preserves_len {acc acc' : List String × List (List String)} {line : String}
    (hP : acc.2.length = acc.1.length) (h : segLine acc line = .ok acc') :
    acc'.2.length = acc'.1.length := by
  unfold segLine at h
  simp only [] at h
  split at h
  · cases h
    exact hP
  · split at h
    · simp only [Except.ok.injEq] at h
      rw [← h]
      simp [hP]
    · cases h

/-- The segmenter emits exactly as many per-token label lists as tokens; this
justifies the equal-length hypothesis of the span-bounds theorem. -/
theorem get_paragraph_data_lengths {par t : String} {toks : List String}
    {labs : List (List String)}
    (h : get_paragraph_data par = .ok (t, toks, labs)) : labs.length = toks.length := by
  unfold get_paragraph_data at h
  simp only [] at h
  cases hf : exceptFoldl segLine ([], []) (pySplit par.trim '\n').tail with
  | error e =>
    rw [hf] at h
    cases h
  | ok acc =>
    rcases acc with ⟨a1, a2⟩
    rw [hf] at h
    simp only [Except.ok.injEq, Prod.mk.injEq] at h
    have hinv := exceptFoldl_inv
      (P := fun acc : List String × List (List String) => acc.2.length = acc.1.length)
      (fun b a b' hP hstep => segLine_preserves_len hP hstep) _ (by simp) hf
    rw [← h.2.1, ← h.2.2]
    exact hinv

end CorefPre
